import Mathlib

/-!
Shallow embedding of the canvas undo/redo history manager (`useCanvasHistory`
in `frontend/app/(auth)/register/page.tsx`, second document) and the auto-save
scheduler (`useAutoSave`), together with proofs of the specification claims
about them.

Modelling conventions:
* A `StateBlob` is the JSON string `JSON.stringify(canvas.toJSON())`.
* The nullable `canvas` reference is an `Option StateBlob`: `none` models a
  null canvas, `some j` models an attached canvas whose current
  `JSON.stringify(canvas.toJSON())` yields `j`.  Operations that do not
  serialize ignore the payload and only test attachment.
* `canvas.loadFromJSON` calls are reported in the operation's result rather
  than performed: `deserialized = some a` means `loadFromJSON` was invoked
  with argument `a` (where `a = none` models the JS `undefined` produced by an
  out-of-range array read), `deserialized = none` means it was not invoked.
* All functions are total, mirroring the source's policy that none of these
  operations throw.
-/

abbrev StateBlob := String

/-- The capacity constant: `if (historyRef.current.length > 50)`. -/
def MAX_HISTORY : Nat := 50

/-- The mutable state of `useCanvasHistory`: `historyRef.current`,
`historyStepRef.current` (a JS number, initially `-1`, hence `Int`), and the
two React state flags. -/
structure HistoryState where
  log : List StateBlob
  position : Int
  canUndo : Bool
  canRedo : Bool
deriving DecidableEq, Repr

/-- Initial hook state: `historyRef = []`, `historyStepRef = -1`,
`canUndo = false`, `canRedo = false`. -/
def initialHistory : HistoryState := ⟨[], -1, false, false⟩

/-- `saveState`: returns unchanged state when `canvas` is null; otherwise
slices the log to `[0, step+1)`, pushes the serialized blob, increments the
step, evicts index 0 and decrements the step when the length exceeds 50, and
recomputes `canUndo = step > 0`, `canRedo = false`. -/
def saveState (canvas : Option StateBlob) (s : HistoryState) : HistoryState :=
  match canvas with
  | none => s
  | some json =>
    let truncated := s.log.take (s.position + 1).toNat
    let pushed := truncated ++ [json]
    let stepped := s.position + 1
    if pushed.length > MAX_HISTORY then
      { log := pushed.drop 1
        position := stepped - 1
        canUndo := decide (0 < stepped - 1)
        canRedo := false }
    else
      { log := pushed
        position := stepped
        canUndo := decide (0 < stepped)
        canRedo := false }

/-- Result of `undo`/`redo`: the successor hook state and the argument of the
`canvas.loadFromJSON` call, if one was made (see the module docstring). -/
structure UndoRedoOut where
  state : HistoryState
  deserialized : Option (Option StateBlob)
deriving DecidableEq, Repr

/-- `undo`: no-op when the canvas is null or `step <= 0`; otherwise decrements
the step, loads `history[step]` into the canvas, and sets
`canUndo = step > 0`, `canRedo = true` in the load callback. -/
def undo (canvas : Option StateBlob) (s : HistoryState) : UndoRedoOut :=
  match canvas with
  | none => ⟨s, none⟩
  | some _ =>
    if s.position ≤ 0 then ⟨s, none⟩
    else
      let stepped := s.position - 1
      ⟨{ s with position := stepped,
                canUndo := decide (0 < stepped),
                canRedo := true },
       some (s.log[stepped.toNat]?)⟩

/-- `redo`: no-op when the canvas is null or `step >= history.length - 1`;
otherwise increments the step, loads `history[step]`, and sets
`canUndo = true`, `canRedo = step < history.length - 1`. -/
def redo (canvas : Option StateBlob) (s : HistoryState) : UndoRedoOut :=
  match canvas with
  | none => ⟨s, none⟩
  | some _ =>
    if (s.log.length : Int) - 1 ≤ s.position then ⟨s, none⟩
    else
      let stepped := s.position + 1
      ⟨{ s with position := stepped,
                canUndo := true,
                canRedo := decide (stepped < (s.log.length : Int) - 1) },
       some (s.log[stepped.toNat]?)⟩

/-- One invocation of a history-manager operation, with the canvas reference
it observed (`none` = null canvas). -/
inductive EditorOp where
  | record (canvas : Option StateBlob)
  | undoOp (canvas : Option StateBlob)
  | redoOp (canvas : Option StateBlob)
deriving DecidableEq, Repr

/-- The state transition of one operation (discarding the deserialize trace). -/
def histStep (s : HistoryState) (op : EditorOp) : HistoryState :=
  match op with
  | .record c => saveState c s
  | .undoOp c => (undo c s).state
  | .redoOp c => (redo c s).state

/-- The hook state reached from the initial state by a sequence of
operations; its image is exactly the set of reachable history states. -/
def runOps (ops : List EditorOp) : HistoryState :=
  ops.foldl histStep initialHistory

/-- A pure sequence of `record()` calls on an attached canvas whose
serializations are `js`, starting from the empty history. -/
def recordSeq (js : List StateBlob) : HistoryState :=
  js.foldl (fun s j => saveState (some j) s) initialHistory

/-- `true` when the operation list contains no `undo` call. -/
def noUndo (ops : List EditorOp) : Bool :=
  ops.all fun op =>
    match op with
    | .undoOp _ => false
    | _ => true

/-- The mutable state of `useAutoSave`: `lastSavedRef.current` (initially the
empty string) and `isSavingRef.current`. -/
structure AutoSaveState where
  lastSaved : StateBlob
  isSaving : Bool
deriving DecidableEq, Repr

/-- Initial scheduler state: `lastSavedRef = ''`, `isSavingRef = false`. -/
def initialAutoSave : AutoSaveState := ⟨"", false⟩

/-- Outcome of the synchronous prefix of one `saveCanvas` call: the state when
the prefix returns or suspends, whether `JSON.stringify(canvas.toJSON())` was
evaluated, and the blob passed to `onSave` if the call reached the `await`. -/
structure FlushAttempt where
  state : AutoSaveState
  serialized : Bool
  persistReq : Option StateBlob
deriving DecidableEq, Repr

/-- The synchronous prefix of `saveCanvas`, up to (and including) starting
`await onSave(currentState)`: returns immediately when the canvas is null or
a save is in flight (without serializing), serializes, returns when the blob
equals `lastSavedRef.current`, and otherwise sets `isSavingRef = true` and
issues `onSave(currentState)`. -/
def saveCanvasStart (canvas : Option StateBlob) (s : AutoSaveState) : FlushAttempt :=
  match canvas with
  | none => ⟨s, false, none⟩
  | some json =>
    if s.isSaving then ⟨s, false, none⟩
    else
      let currentState := json
      if currentState = s.lastSaved then ⟨s, true, none⟩
      else ⟨⟨s.lastSaved, true⟩, true, some currentState⟩

/-- The continuation of `saveCanvas` after `await onSave(pending)` settles:
on fulfilment `lastSavedRef := pending`; on rejection the error is caught and
logged, leaving `lastSavedRef` unchanged; the `finally` block resets
`isSavingRef := false` in both cases. -/
def saveCanvasEnd (pending : StateBlob) (success : Bool) (s : AutoSaveState) : AutoSaveState :=
  if success then ⟨pending, false⟩ else ⟨s.lastSaved, false⟩

/-- One uninterleaved `saveCanvas` run: the synchronous prefix followed, when
a persistence call was issued, by its continuation with outcome `success`.
The second component is the blob passed to `onSave`, if any. -/
def saveCanvas (canvas : Option StateBlob) (success : Bool) (s : AutoSaveState) :
    AutoSaveState × Option StateBlob :=
  let a := saveCanvasStart canvas s
  match a.persistReq with
  | none => (a.state, none)
  | some b => (saveCanvasEnd b success a.state, some b)

/-- The single debounce-timer slot `timeoutRef.current`: `some d` is a pending
timeout whose callback fires at absolute time `d`. -/
structure AutoSaveTimer where
  pendingDeadline : Option Nat
deriving DecidableEq, Repr

/-- The default `interval` of `useAutoSave`. -/
def defaultInterval : Nat := 30000

/-- `scheduleAutoSave`, invoked at absolute time `now`: clears any pending
timeout and installs a single new timeout firing at `now + interval`. -/
def scheduleAutoSave (now interval : Nat) (_t : AutoSaveTimer) : AutoSaveTimer :=
  ⟨some (now + interval)⟩

/-- A sequence of mutation events at the given absolute times, each calling
`scheduleAutoSave`. -/
def runSchedule (interval : Nat) (times : List Nat) (t : AutoSaveTimer) : AutoSaveTimer :=
  times.foldl (fun a now => scheduleAutoSave now interval a) t

/-- The Fabric events `initHistory` subscribes `saveState` to. -/
def historyEvents : List String :=
  ["object:added", "object:removed", "object:modified", "object:skewing"]

/-- The Fabric events the `useAutoSave` effect subscribes `scheduleAutoSave`
to. -/
def autoSaveEvents : List String :=
  ["object:modified", "object:added", "object:removed"]

/-- C4: `undo()` with `position <= 0` and `redo()` with
`position >= length(log) - 1` return the state (log, position, both flags)
unchanged and make no `loadFromJSON` call; both are total functions, so no
exception is raised. -/
theorem c4_out_of_range_undo_redo_noop (c : Option StateBlob) (s : HistoryState) :
    (s.position ≤ 0 → undo c s = ⟨s, none⟩) ∧
    ((s.log.length : Int) - 1 ≤ s.position → redo c s = ⟨s, none⟩) := by
  constructor
  · intro h
    cases c with
    | none => rfl
    | some j => simp [undo, h]
  · intro h
    cases c with
    | none => rfl
    | some j => simp [redo, h]

/-- Witness for C4 at the concrete state `⟨["a"], 0, false, false⟩`. -/
theorem c4_out_of_range_undo_redo_noop_witness :
    undo (some "x") ⟨["a"], 0, false, false⟩ = ⟨⟨["a"], 0, false, false⟩, none⟩ ∧
    redo (some "x") ⟨["a"], 0, false, false⟩ = ⟨⟨["a"], 0, false, false⟩, none⟩ :=
  ⟨(c4_out_of_range_undo_redo_noop (some "x") ⟨["a"], 0, false, false⟩).1 (by decide),
   (c4_out_of_range_undo_redo_noop (some "x") ⟨["a"], 0, false, false⟩).2 (by decide)⟩

/-- C9: with a null canvas, `saveState`, `undo`, `redo` and `saveCanvas` all
return their state argument unchanged, make no `loadFromJSON` call and no
`onSave` call, and never reach the serialization of the canvas (the guards
`if (!canvas) return` / `if (!canvas || isSavingRef.current) return` fire
before `JSON.stringify(canvas.toJSON())`). -/
theorem c9_null_canvas_noop (s : HistoryState) (a : AutoSaveState) (success : Bool) :
    saveState none s = s ∧
    undo none s = ⟨s, none⟩ ∧
    redo none s = ⟨s, none⟩ ∧
    saveCanvasStart none a = ⟨a, false, none⟩ ∧
    saveCanvas none success a = (a, none) := by
  exact ⟨rfl, rfl, rfl, rfl, rfl⟩

/-- C6: when the persistence call rejects (`success = false`), the `catch`
swallows the error (the model function is total and returns normally),
`lastSaved` is unchanged and `isSaving` is reset to `false`; when it fulfils,
`lastSaved` becomes exactly the persisted blob and `isSaving` is reset. -/
theorem c6_persist_failure_swallowed (c : Option StateBlob) (s : AutoSaveState) (b : StateBlob) :
    ((saveCanvas c false s).2 = some b →
      (saveCanvas c false s).1 = ⟨s.lastSaved, false⟩) ∧
    ((saveCanvas c true s).2 = some b →
      (saveCanvas c true s).1 = ⟨b, false⟩) := by
  constructor
  · intro h
    cases c with
    | none => simp [saveCanvas, saveCanvasStart] at h
    | some j =>
      by_cases hs : s.isSaving
      · simp [saveCanvas, saveCanvasStart, hs] at h
      · by_cases he : j = s.lastSaved
        · simp [saveCanvas, saveCanvasStart, hs, he] at h
        · simp [saveCanvas, saveCanvasStart, saveCanvasEnd, hs, he] at h ⊢
  · intro h
    cases c with
    | none => simp [saveCanvas, saveCanvasStart] at h
    | some j =>
      by_cases hs : s.isSaving
      · simp [saveCanvas, saveCanvasStart, hs] at h
      · by_cases he : j = s.lastSaved
        · simp [saveCanvas, saveCanvasStart, hs, he] at h
        · simp [saveCanvas, saveCanvasStart, saveCanvasEnd, hs, he] at h ⊢
          exact h

/-- Witness for C6 at `canvas = some "B"`, starting state `⟨"A", false⟩`. -/
theorem c6_persist_failure_swallowed_witness :
    (saveCanvas (some "B") false ⟨"A", false⟩).1 = ⟨"A", false⟩ ∧
    (saveCanvas (some "B") true ⟨"A", false⟩).1 = ⟨"B", false⟩ :=
  ⟨(c6_persist_failure_swallowed (some "B") ⟨"A", false⟩ "B").1 (by decide),
   (c6_persist_failure_swallowed (some "B") ⟨"A", false⟩ "B").2 (by decide)⟩

/-- C7: every mutation replaces the single timer slot with a deadline of
`now + interval`, so after any mutation sequence ending at time `now` the one
pending deadline is `now + interval`; with the default 30000 ms interval,
mutations at t=0 and t=10000 leave the deadline at t=40000, not t=30000. -/
theorem c7_debounce_single_deadline (interval now : Nat) (times : List Nat)
    (t : AutoSaveTimer) :
    runSchedule interval (times ++ [now]) t = ⟨some (now + interval)⟩ ∧
    (runSchedule defaultInterval [0, 10000] ⟨none⟩).pendingDeadline = some 40000 ∧
    (runSchedule defaultInterval [0, 10000] ⟨none⟩).pendingDeadline ≠ some 30000 := by
  refine ⟨?_, by decide, by decide⟩
  simp [runSchedule, scheduleAutoSave]

/-- C5 as stated is false: with `lastSavedRef = "B"` (a previous flush of `"B"`
succeeded) and the canvas still serializing to `"B"`, two `saveCanvas` calls in
immediate succession with no intervening mutation make ZERO calls to `onSave`
(both return at the blob-equality guard), not exactly one. -/
theorem c5_counterexample :
    (saveCanvasStart (some "B") ⟨"B", false⟩).persistReq = none ∧
    (saveCanvasStart (some "B")
      (saveCanvasStart (some "B") ⟨"B", false⟩).state).persistReq = none := by
  constructor <;> rfl

/-- C5 amended: two `saveCanvas` calls in immediate succession (the second
starts while the first is suspended at `await onSave`) with no intervening
mutation make AT MOST one `onSave` call, and exactly one when the first call
is not itself suppressed (no save in flight and the serialized blob differs
from `lastSavedRef`); a call while a save is in flight returns immediately
without serializing or persisting; and no call ever passes `onSave` a blob
equal to `lastSavedRef`. -/
theorem c5_amended_flush_idempotence (c : Option StateBlob) (s : AutoSaveState)
    (b : StateBlob) :
    ((saveCanvasStart c s).persistReq.isSome →
      (saveCanvasStart c (saveCanvasStart c s).state).persistReq = none) ∧
    (s.isSaving = false → c = some b → b ≠ s.lastSaved →
      (saveCanvasStart c s).persistReq = some b ∧
      (saveCanvasStart c (saveCanvasStart c s).state).persistReq = none) ∧
    (s.isSaving = true → saveCanvasStart c s = ⟨s, false, none⟩) ∧
    (∀ b2, (saveCanvasStart c s).persistReq = some b2 → b2 ≠ s.lastSaved) := by
  refine ⟨?_, ?_, ?_, ?_⟩
  · intro h
    cases c with
    | none => simp [saveCanvasStart] at h
    | some j =>
      by_cases hs : s.isSaving
      · simp [saveCanvasStart, hs] at h
      · by_cases he : j = s.lastSaved
        · simp [saveCanvasStart, hs, he] at h
        · simp [saveCanvasStart, hs, he]
  · intro hs hc hne
    subst hc
    simp only [saveCanvasStart, hs]
    simp [hne]
  · intro hs
    cases c with
    | none => rfl
    | some j => simp [saveCanvasStart, hs]
  · intro b2 h
    cases c with
    | none => simp [saveCanvasStart] at h
    | some j =>
      by_cases hs : s.isSaving
      · simp [saveCanvasStart, hs] at h
      · by_cases he : j = s.lastSaved
        · simp [saveCanvasStart, hs, he] at h
        · simp [saveCanvasStart, hs, he] at h
          simpa [h] using he

/-- C8 witness fails at `object:skewing`: `initHistory` subscribes `saveState`
to it, but the `useAutoSave` effect does not subscribe `scheduleAutoSave` to
it, so a skew-in-progress mutation records history without (re)scheduling an
auto-save. -/
theorem c8_counterexample :
    "object:skewing" ∈ historyEvents ∧ "object:skewing" ∉ autoSaveEvents := by
  constructor
  · simp [historyEvents]
  · simp [autoSaveEvents]

/-- C8 amended: the two hooks share only the add/remove/modify events — every
event the auto-save scheduler subscribes to also triggers `saveState`, and
every event `initHistory` subscribes to except `object:skewing` also triggers
`scheduleAutoSave`; `object:skewing` triggers history recording only. -/
theorem c8_amended_shared_mutation_signal :
    (∀ e, e ∈ autoSaveEvents → e ∈ historyEvents) ∧
    (∀ e, e ∈ historyEvents → e ≠ "object:skewing" → e ∈ autoSaveEvents) := by
  constructor
  · intro e he
    simp only [autoSaveEvents, List.mem_cons, List.not_mem_nil, or_false] at he
    rcases he with h | h | h <;> simp [historyEvents, h]
  · intro e he hne
    simp only [historyEvents, List.mem_cons, List.not_mem_nil, or_false] at he
    rcases he with h | h | h | h <;> simp_all [autoSaveEvents]

/-- Witness for C8's amended theorem at the concrete event `object:added`. -/
theorem c8_amended_shared_mutation_signal_witness :
    "object:added" ∈ historyEvents ∧ "object:added" ∈ autoSaveEvents :=
  ⟨c8_amended_shared_mutation_signal.1 "object:added" (by simp [autoSaveEvents]),
   c8_amended_shared_mutation_signal.2 "object:added" (by simp [historyEvents])
     (by simp)⟩

/-- Witness for C5's amended theorem: canvas serializing `"B"`, idle state with
`lastSavedRef = "A"`: the first call persists `"B"`, the second is suppressed. -/
theorem c5_amended_flush_idempotence_witness :
    (saveCanvasStart (some "B") ⟨"A", false⟩).persistReq = some "B" ∧
    (saveCanvasStart (some "B")
      (saveCanvasStart (some "B") ⟨"A", false⟩).state).persistReq = none := by
  have h := (c5_amended_flush_idempotence (some "B") ⟨"A", false⟩ "B").2.1
    rfl rfl (by decide)
  exact h

/-- The inductive invariant of the history hook: the step stays in
`[-1, length)`, the log is capped at 50 entries, and the step is `-1` only
while the log is empty. -/
def HistInv (s : HistoryState) : Prop :=
  -1 ≤ s.position ∧ s.position < (s.log.length : Int) ∧
    s.log.length ≤ MAX_HISTORY ∧ (0 < s.log.length → 0 ≤ s.position)

lemma histInv_initial : HistInv initialHistory := by
  refine ⟨by norm_num [initialHistory], ?_, ?_, ?_⟩ <;>
    simp [initialHistory, MAX_HISTORY]

lemma length_take_step (s : HistoryState) (h : HistInv s) :
    (s.log.take (s.position + 1).toNat).length = (s.position + 1).toNat := by
  obtain ⟨h1, h2, -, -⟩ := h
  rw [List.length_take]
  omega

lemma saveState_log_spec (j : StateBlob) (s : HistoryState) (h : HistInv s) :
    (saveState (some j) s).log =
      (s.log.take (s.position + 1).toNat ++ [j]).drop
        ((s.log.take (s.position + 1).toNat ++ [j]).length - MAX_HISTORY) := by
  obtain ⟨h1, h2, h3, h4⟩ := h
  have hp := length_take_step s ⟨h1, h2, h3, h4⟩
  have hlen : (s.log.take (s.position + 1).toNat ++ [j]).length =
      (s.position + 1).toNat + 1 := by
    rw [List.length_append, hp]; rfl
  simp only [saveState]
  split
  · next hgt =>
    rw [hlen]
    have : (s.position + 1).toNat + 1 - MAX_HISTORY = 1 := by
      rw [hlen] at hgt
      unfold MAX_HISTORY at hgt h3 ⊢
      omega
    rw [this]
  · next hle =>
    rw [hlen]
    have : (s.position + 1).toNat + 1 - MAX_HISTORY = 0 := by
      rw [hlen] at hle
      unfold MAX_HISTORY at hle ⊢
      omega
    rw [this, List.drop_zero]

lemma saveState_position_spec (j : StateBlob) (s : HistoryState) (h : HistInv s) :
    (saveState (some j) s).position = ((saveState (some j) s).log.length : Int) - 1 := by
  obtain ⟨h1, h2, h3, h4⟩ := h
  have hp := length_take_step s ⟨h1, h2, h3, h4⟩
  have hlen : (s.log.take (s.position + 1).toNat ++ [j]).length =
      (s.position + 1).toNat + 1 := by
    rw [List.length_append, hp]; rfl
  simp only [saveState]
  split
  · next hgt =>
    rw [hlen] at hgt
    simp only [List.length_drop, hlen]
    push_cast
    omega
  · next hle =>
    rw [hlen] at hle
    simp only [hlen]
    push_cast
    omega

lemma saveState_canRedo_false (j : StateBlob) (s : HistoryState) :
    (saveState (some j) s).canRedo = false := by
  simp only [saveState]
  split <;> rfl

lemma saveState_length_spec (j : StateBlob) (s : HistoryState) (h : HistInv s) :
    (saveState (some j) s).log.length = min ((s.position + 1).toNat + 1) MAX_HISTORY := by
  have hp := length_take_step s h
  rw [saveState_log_spec j s h]
  simp only [List.length_drop, List.length_append, hp]
  simp only [List.length_cons, List.length_nil]
  omega

lemma histInv_saveState (c : Option StateBlob) (s : HistoryState) (h : HistInv s) :
    HistInv (saveState c s) := by
  cases c with
  | none => exact h
  | some j =>
    have hpos := saveState_position_spec j s h
    have hlen := saveState_length_spec j s h
    obtain ⟨h1, h2, h3, h4⟩ := h
    refine ⟨?_, ?_, ?_, ?_⟩ <;> omega

lemma histInv_undo (c : Option StateBlob) (s : HistoryState) (h : HistInv s) :
    HistInv (undo c s).state := by
  obtain ⟨h1, h2, h3, h4⟩ := h
  cases c with
  | none => exact ⟨h1, h2, h3, h4⟩
  | some j =>
    simp only [undo]
    split
    · exact ⟨h1, h2, h3, h4⟩
    · next hgt =>
      refine ⟨?_, ?_, ?_, ?_⟩ <;> dsimp only <;> omega

lemma histInv_redo (c : Option StateBlob) (s : HistoryState) (h : HistInv s) :
    HistInv (redo c s).state := by
  obtain ⟨h1, h2, h3, h4⟩ := h
  cases c with
  | none => exact ⟨h1, h2, h3, h4⟩
  | some j =>
    simp only [redo]
    split
    · exact ⟨h1, h2, h3, h4⟩
    · next hlt =>
      refine ⟨?_, ?_, ?_, ?_⟩ <;> dsimp only <;> omega

lemma histInv_histStep (op : EditorOp) (s : HistoryState) (h : HistInv s) :
    HistInv (histStep s op) := by
  cases op with
  | record c => exact histInv_saveState c s h
  | undoOp c => exact histInv_undo c s h
  | redoOp c => exact histInv_redo c s h

lemma histInv_foldl (ops : List EditorOp) :
    ∀ s : HistoryState, HistInv s → HistInv (ops.foldl histStep s) := by
  induction ops with
  | nil => exact fun s h => h
  | cons op rest ih =>
    intro s h
    exact ih (histStep s op) (histInv_histStep op s h)

lemma histInv_runOps (ops : List EditorOp) : HistInv (runOps ops) :=
  histInv_foldl ops initialHistory histInv_initial

lemma recordSeq_append (l : List StateBlob) (a : StateBlob) :
    recordSeq (l ++ [a]) = saveState (some a) (recordSeq l) := by
  simp [recordSeq, List.foldl_append]

/-- Closed form of a pure `record()` sequence from the empty history: the log
keeps the most recent `min N 50` blobs in order, and the step points at the
last of them. -/
lemma recordSeq_spec (js : List StateBlob) :
    recordSeq js = ⟨js.drop (js.length - MAX_HISTORY),
      ((min js.length MAX_HISTORY : Nat) : Int) - 1,
      decide (0 < ((min js.length MAX_HISTORY : Nat) : Int) - 1),
      false⟩ := by
  induction js using List.reverseRecOn with
  | nil => decide
  | append_singleton l a ih =>
    rw [recordSeq_append, ih]
    simp only [saveState]
    unfold MAX_HISTORY
    have hdlen : (l.drop (l.length - 50)).length = min l.length 50 := by
      rw [List.length_drop]; omega
    have hstep : (((min l.length 50 : Nat) : Int) - 1 + 1).toNat = min l.length 50 := by
      omega
    rw [hstep]
    rw [List.take_of_length_le (by rw [hdlen])]
    by_cases h50 : 50 ≤ l.length
    · have hcond : (List.drop (l.length - 50) l ++ [a]).length > 50 := by
        simp only [List.length_append, List.length_cons, List.length_nil, hdlen]
        omega
      rw [if_pos hcond]
      simp only [HistoryState.mk.injEq]
      refine ⟨?_, ?_, ?_, trivial⟩
      · have h1le : (1 : Nat) ≤ (List.drop (l.length - 50) l).length := by
          rw [hdlen]; omega
        rw [List.drop_append_of_le_length h1le, List.drop_drop]
        have h2le : (l ++ [a]).length - 50 ≤ l.length := by
          simp only [List.length_append, List.length_cons, List.length_nil]
          omega
        rw [List.drop_append_of_le_length h2le]
        have e3 : (l ++ [a]).length - 50 = l.length - 50 + 1 := by
          simp only [List.length_append, List.length_cons, List.length_nil]
          omega
        rw [e3]
      · simp only [List.length_append, List.length_cons, List.length_nil]
        omega
      · apply decide_eq_decide.mpr
        simp only [List.length_append, List.length_cons, List.length_nil]
        omega
    · have hcond : ¬((List.drop (l.length - 50) l ++ [a]).length > 50) := by
        simp only [List.length_append, List.length_cons, List.length_nil, hdlen]
        omega
      rw [if_neg hcond]
      simp only [HistoryState.mk.injEq]
      refine ⟨?_, ?_, ?_, trivial⟩
      · have e1 : l.length - 50 = 0 := by omega
        have e2 : (l ++ [a]).length - 50 = 0 := by
          simp only [List.length_append, List.length_cons, List.length_nil]
          omega
        rw [e1, e2, List.drop_zero, List.drop_zero]
      · simp only [List.length_append, List.length_cons, List.length_nil]
        omega
      · apply decide_eq_decide.mpr
        simp only [List.length_append, List.length_cons, List.length_nil]
        omega

/-- C1: starting from the empty history with an attached canvas and no
interleaved undo/redo, after `N` `record()` calls with blobs `js`: if
`N ≤ 50` the log is exactly `js` (so `length = N`) and the step is `N - 1`;
if `N > 50` the log holds 50 entries, the step is 49, and the surviving
entries are the last 50 blobs — the oldest `N - 50` were evicted in FIFO
order. -/
theorem c1_record_sequence_bounds (js : List StateBlob) :
    (js.length ≤ MAX_HISTORY →
      (recordSeq js).log = js ∧
      (recordSeq js).log.length = js.length ∧
      (recordSeq js).position = (js.length : Int) - 1) ∧
    (MAX_HISTORY < js.length →
      (recordSeq js).log.length = MAX_HISTORY ∧
      (recordSeq js).position = (MAX_HISTORY : Int) - 1 ∧
      (recordSeq js).log = js.drop (js.length - MAX_HISTORY)) := by
  simp only [recordSeq_spec]
  constructor
  · intro h
    have h0 : js.length - MAX_HISTORY = 0 := by omega
    refine ⟨?_, ?_, ?_⟩
    · rw [h0, List.drop_zero]
    · rw [h0, List.drop_zero]
    · omega
  · intro h
    refine ⟨?_, ?_, trivial⟩
    · rw [List.length_drop]
      omega
    · omega

/-- Witness for C1 at two and at fifty-one records. -/
theorem c1_record_sequence_bounds_witness :
    ((recordSeq (List.replicate 2 "a")).log.length = 2 ∧
      (recordSeq (List.replicate 2 "a")).position = 1) ∧
    ((recordSeq (List.replicate 51 "a")).log.length = MAX_HISTORY ∧
      (recordSeq (List.replicate 51 "a")).position = 49) := by
  constructor
  · have h := (c1_record_sequence_bounds (List.replicate 2 "a")).1 (by decide)
    refine ⟨?_, ?_⟩
    · simpa using h.2.1
    · simpa using h.2.2
  · have h := (c1_record_sequence_bounds (List.replicate 51 "a")).2 (by decide)
    refine ⟨h.1, ?_⟩
    rw [h.2.1]
    decide

/-- C2: every reachable hook state satisfies `0 ≤ step < length(log)` when the
log is nonempty and `length(log) ≤ 50`; and a `record()` from a state at
capacity (`length = 50`) with the step at the top (`49`) evicts the oldest
entry, keeps the step at 49, and leaves the newly appended blob at the step
position. -/
theorem c2_history_invariants (ops : List EditorOp) (j : StateBlob) :
    ((0 < (runOps ops).log.length →
        0 ≤ (runOps ops).position ∧
        (runOps ops).position < ((runOps ops).log.length : Int)) ∧
      (runOps ops).log.length ≤ MAX_HISTORY) ∧
    ((runOps ops).log.length = MAX_HISTORY → (runOps ops).position = 49 →
      (saveState (some j) (runOps ops)).log = (runOps ops).log.drop 1 ++ [j] ∧
      (saveState (some j) (runOps ops)).position = 49 ∧
      (saveState (some j) (runOps ops)).log.length = MAX_HISTORY ∧
      (saveState (some j) (runOps ops)).log[(49 : Nat)]? = some j) := by
  obtain ⟨h1, h2, h3, h4⟩ := histInv_runOps ops
  constructor
  · exact ⟨fun hl => ⟨h4 hl, h2⟩, h3⟩
  · intro hlen hpos
    have htake : (runOps ops).log.take ((runOps ops).position + 1).toNat =
        (runOps ops).log := by
      apply List.take_of_length_le
      rw [hlen, hpos]
      decide
    have hcond : ((runOps ops).log ++ [j]).length > MAX_HISTORY := by
      simp only [List.length_append, List.length_cons, List.length_nil, hlen]
      unfold MAX_HISTORY
      omega
    have h1le : (1 : Nat) ≤ (runOps ops).log.length := by
      rw [hlen]; unfold MAX_HISTORY; omega
    simp only [saveState, htake]
    rw [if_pos hcond]
    refine ⟨?_, ?_, ?_, ?_⟩
    · dsimp only
      rw [List.drop_append_of_le_length h1le]
    · dsimp only
      omega
    · dsimp only
      rw [List.drop_append_of_le_length h1le, List.length_append, List.length_drop,
        hlen]
      rfl
    · dsimp only
      rw [List.drop_append_of_le_length h1le]
      have hdl : ((runOps ops).log.drop 1).length = 49 := by
        rw [List.length_drop, hlen]
        decide
      rw [List.getElem?_append_right hdl.le, hdl]
      rfl

set_option maxRecDepth 100000 in
/-- Witness for C2: fifty records reach capacity; the fifty-first appended
blob lands at the step position. -/
theorem c2_history_invariants_witness :
    (runOps (List.replicate 50 (EditorOp.record (some "a")))).log.length = MAX_HISTORY ∧
    (saveState (some "b")
      (runOps (List.replicate 50 (EditorOp.record (some "a"))))).log[(49 : Nat)]? =
      some "b" := by
  have hlen : (runOps (List.replicate 50 (EditorOp.record (some "a")))).log.length =
      MAX_HISTORY := by decide
  have h := (c2_history_invariants (List.replicate 50 (EditorOp.record (some "a"))) "b").2
    hlen (by decide)
  exact ⟨hlen, h.2.2.2⟩

/-- After a `record()`, as long as no `undo()` occurs, every further
operation keeps the step at the top of the log, keeps `canRedo = false`, and
keeps the invariant. -/
lemma topState_preserved (ops : List EditorOp) (hops : noUndo ops = true) :
    ∀ s : HistoryState, HistInv s → s.position = (s.log.length : Int) - 1 →
      s.canRedo = false →
      HistInv (ops.foldl histStep s) ∧
      (ops.foldl histStep s).position =
        ((ops.foldl histStep s).log.length : Int) - 1 ∧
      (ops.foldl histStep s).canRedo = false := by
  induction ops with
  | nil => exact fun s hInv hpos hred => ⟨hInv, hpos, hred⟩
  | cons op rest ih =>
    intro s hInv hpos hred
    simp only [noUndo, List.all_cons, Bool.and_eq_true] at hops
    obtain ⟨hop, hrest⟩ := hops
    have hrest' : noUndo rest = true := hrest
    cases op with
    | record c =>
      cases c with
      | none => exact ih hrest' s hInv hpos hred
      | some j =>
        exact ih hrest' (saveState (some j) s) (histInv_saveState (some j) s hInv)
          (saveState_position_spec j s hInv) (saveState_canRedo_false j s)
    | undoOp c => simp at hop
    | redoOp c =>
      have hstep : histStep s (.redoOp c) = s := by
        cases c with
        | none => rfl
        | some x =>
          simp only [histStep, redo]
          rw [if_pos hpos.ge]
      rw [List.foldl_cons, hstep]
      exact ih hrest' s hInv hpos hred

/-- C3: `record()` truncates the log to `[0, step]`, appends the new blob
(evicting the head if the result exceeds 50 entries) and leaves the step at
the last index; immediately afterwards `canRedo = false`, and after any
further undo-free operations `redo()` remains a silent no-op (state
unchanged, no `loadFromJSON` call) with `canRedo` still `false` — the log is
strictly linear. -/
theorem c3_record_truncates_and_invalidates_redo (ops rest : List EditorOp)
    (j : StateBlob) (c : Option StateBlob) (hrest : noUndo rest = true) :
    (saveState (some j) (runOps ops)).log =
      ((runOps ops).log.take ((runOps ops).position + 1).toNat ++ [j]).drop
        (((runOps ops).log.take ((runOps ops).position + 1).toNat ++ [j]).length -
          MAX_HISTORY) ∧
    (saveState (some j) (runOps ops)).position =
      ((saveState (some j) (runOps ops)).log.length : Int) - 1 ∧
    (saveState (some j) (runOps ops)).canRedo = false ∧
    (redo c (rest.foldl histStep (saveState (some j) (runOps ops)))).state =
      rest.foldl histStep (saveState (some j) (runOps ops)) ∧
    (redo c (rest.foldl histStep (saveState (some j) (runOps ops)))).deserialized =
      none ∧
    (rest.foldl histStep (saveState (some j) (runOps ops))).canRedo = false := by
  have hInv := histInv_runOps ops
  have h1 := saveState_log_spec j (runOps ops) hInv
  have h2 := saveState_position_spec j (runOps ops) hInv
  have h3 := saveState_canRedo_false j (runOps ops)
  obtain ⟨hTi, hTp, hTr⟩ := topState_preserved rest hrest
    (saveState (some j) (runOps ops))
    (histInv_saveState (some j) (runOps ops) hInv) h2 h3
  have hredo : redo c (rest.foldl histStep (saveState (some j) (runOps ops))) =
      ⟨rest.foldl histStep (saveState (some j) (runOps ops)), none⟩ := by
    cases c with
    | none => rfl
    | some x =>
      simp only [redo]
      rw [if_pos hTp.ge]
  exact ⟨h1, h2, h3, by rw [hredo], by rw [hredo], hTr⟩

/-- Witness for C3 at a single record on the empty history, empty tail. -/
theorem c3_record_truncates_and_invalidates_redo_witness :
    (saveState (some "a") (runOps [])).canRedo = false ∧
    (redo (some "x") (saveState (some "a") (runOps []))).deserialized = none := by
  have h := c3_record_truncates_and_invalidates_redo [] [] "a" (some "x") (by decide)
  exact ⟨h.2.2.1, h.2.2.2.2.1⟩

/-- C10: from any reachable state, an in-range `undo()` (step `> 0`) or
`redo()` (step `< length - 1`) leaves the log untouched, moves only the step
(and the flags), and passes `loadFromJSON` exactly the log entry at the new
step, which exists. -/
theorem c10_undo_redo_frame (ops : List EditorOp) (x y : StateBlob) :
    (0 < (runOps ops).position →
      (undo (some x) (runOps ops)).state.log = (runOps ops).log ∧
      (undo (some x) (runOps ops)).state.position = (runOps ops).position - 1 ∧
      (undo (some x) (runOps ops)).deserialized =
        some ((runOps ops).log[((runOps ops).position - 1).toNat]?) ∧
      ((runOps ops).log[((runOps ops).position - 1).toNat]?).isSome = true) ∧
    ((runOps ops).position < ((runOps ops).log.length : Int) - 1 →
      (redo (some y) (runOps ops)).state.log = (runOps ops).log ∧
      (redo (some y) (runOps ops)).state.position = (runOps ops).position + 1 ∧
      (redo (some y) (runOps ops)).deserialized =
        some ((runOps ops).log[((runOps ops).position + 1).toNat]?) ∧
      ((runOps ops).log[((runOps ops).position + 1).toNat]?).isSome = true) := by
  obtain ⟨h1, h2, h3, h4⟩ := histInv_runOps ops
  constructor
  · intro hpos
    have hguard : ¬((runOps ops).position ≤ 0) := by omega
    have hidx : ((runOps ops).position - 1).toNat < (runOps ops).log.length := by
      omega
    simp only [undo, if_neg hguard]
    refine ⟨trivial, trivial, trivial, ?_⟩
    rw [List.getElem?_eq_getElem hidx]
    rfl
  · intro hpos
    have hguard : ¬(((runOps ops).log.length : Int) - 1 ≤ (runOps ops).position) := by
      omega
    have hidx : ((runOps ops).position + 1).toNat < (runOps ops).log.length := by
      omega
    simp only [redo, if_neg hguard]
    refine ⟨trivial, trivial, trivial, ?_⟩
    rw [List.getElem?_eq_getElem hidx]
    rfl

/-- Witness for C10: undo after two records restores the first blob; redo
after an undo restores the second. -/
theorem c10_undo_redo_frame_witness :
    (undo (some "x")
      (runOps [EditorOp.record (some "s0"), EditorOp.record (some "s1")])).deserialized =
      some (some "s0") ∧
    (redo (some "y")
      (runOps [EditorOp.record (some "s0"), EditorOp.record (some "s1"),
        EditorOp.undoOp (some "z")])).deserialized = some (some "s1") := by
  constructor
  · have h := (c10_undo_redo_frame
      [EditorOp.record (some "s0"), EditorOp.record (some "s1")] "x" "y").1 (by decide)
    rw [h.2.2.1]
    decide
  · have h := (c10_undo_redo_frame
      [EditorOp.record (some "s0"), EditorOp.record (some "s1"),
        EditorOp.undoOp (some "z")] "x" "y").2 (by decide)
    rw [h.2.2.1]
    decide
